import Mathlib

/-!
# Verification of the `enwow` environment loader/parser/validator

Shallow embedding of the core of the `enwow` repository:

* `src/parser.ts`   — `EnvParser.parse`, `extractQuotedValue`, `interpolate`
* `src/loader.ts`   — `EnvLoader.getFileNames`, `EnvLoader.load`
* `src/adapters/define.ts` — `resolveAdapters`
* `src/adapters/json.ts`   — `fromJSON`
* `src/validator.ts` — `EnvValidator.validate`, `validateValue`
* `src/env.ts`      — `Env.create`

JavaScript objects (`Record<string, string | undefined>`) are modelled as
insertion-ordered association lists whose values are `Option String`
(`none` = the value `undefined` on a present key).  Object spread
`{...a, ...b}` and property assignment follow the ECMAScript own-property
semantics for string keys.
-/

namespace Enwow

/-- A JS `Record<string, string | undefined>`: own enumerable string keys in
insertion order; a value `none` models a key present with value `undefined`. -/
abbrev EnvMap := List (String × Option String)

/-- A `ParsedEnv` (`Record<string, string>`): values are always strings. -/
abbrev ParsedEnv := List (String × String)

/-- Own-property check `Object.hasOwn(m, k)` restricted to our maps. -/
def hasOwn (m : EnvMap) (k : String) : Bool :=
  m.any (fun p => p.1 == k)

/-- Property read `m[k]` as used by the code, which only ever distinguishes
`undefined` from a string (`m[k] !== undefined`): an absent key and a key
present with value `undefined` both give `none`. -/
def jsGet (m : EnvMap) (k : String) : Option String :=
  match m.find? (fun p => p.1 == k) with
  | some (_, v) => v
  | none => none

/-- Own-property read distinguishing an absent key (`none`) from a key
present with value `undefined` (`some none`) — the observation JS makes via
`Object.entries` or the `in` operator. -/
def getOwn (m : EnvMap) (k : String) : Option (Option String) :=
  (m.find? (fun p => p.1 == k)).map (·.2)

/-- Property read on a `ParsedEnv` (`parsed[name]`). -/
def lookupParsed (m : ParsedEnv) (k : String) : Option String :=
  (m.find? (fun p => p.1 == k)).map (·.2)

/-- JS property assignment `m[k] = v`: overwrites in place when the key is an
own property already, appends otherwise. -/
def setParsed (m : ParsedEnv) (k : String) (v : String) : ParsedEnv :=
  if m.any (fun p => p.1 == k) then
    m.map (fun p => if p.1 == k then (k, v) else p)
  else
    m ++ [(k, v)]

/-- JS property assignment on an `EnvMap`. -/
def setKey (m : EnvMap) (k : String) (v : Option String) : EnvMap :=
  if hasOwn m k then
    m.map (fun p => if p.1 == k then (k, v) else p)
  else
    m ++ [(k, v)]

/-- Object spread `{...a, ...b}`: keys of `a` in order with values overridden
by `b` where `b` has the key, followed by the keys of `b` not in `a`. -/
def spread (a b : EnvMap) : EnvMap :=
  a.map (fun p =>
    match b.find? (fun q => q.1 == p.1) with
    | some (_, v) => (p.1, v)
    | none => p)
  ++ b.filter (fun q => !(hasOwn a q.1))

/-- A spread `{...a, ...parsed}` where `parsed` is a `ParsedEnv`. -/
def spreadParsed (a : EnvMap) (b : ParsedEnv) : EnvMap :=
  spread a (b.map (fun p => (p.1, some p.2)))

/-! ## `src/loader.ts` — `EnvLoader.getFileNames`

```ts
const nodeEnv = this.options.nodeEnv ?? await this.getNodeEnv()
const files: string[] = []
if (nodeEnv) { files.push(`.env.${nodeEnv}.local`) }
const isTest = nodeEnv === 'test' || nodeEnv === 'testing'
if (!isTest) { files.push('.env.local') }
if (nodeEnv) { files.push(`.env.${nodeEnv}`) }
files.push('.env')
return files
```

`nodeEnv : string | undefined` is modelled as `Option String`; the JS
truthiness test `if (nodeEnv)` holds exactly when the value is defined and
not the empty string. -/

/-- JS truthiness of a `string | undefined` value. -/
def strTruthy : Option String → Bool
  | some s => s ≠ ""
  | none => false

/-- `EnvLoader.getFileNames` (the derived-priority branch, after the
`options.files` override and the `?? env.NODE_ENV` fallback have produced the
resolved `nodeEnv`). -/
def getFileNames (nodeEnv : Option String) : List String :=
  (if strTruthy nodeEnv then [".env." ++ nodeEnv.getD "" ++ ".local"] else [])
  ++ (if nodeEnv == some "test" || nodeEnv == some "testing" then [] else [".env.local"])
  ++ (if strTruthy nodeEnv then [".env." ++ nodeEnv.getD ""] else [])
  ++ [".env"]

/-- The candidate list exactly as claim C2 words it: `.env.<mode>.local` only
when the mode is defined, `.env.local` omitted when the mode equals `test` or
`testing`, `.env.<mode>` only when the mode is defined, `.env` always. -/
def claimC2FileNames (mode : Option String) : List String :=
  (match mode with | some m => [".env." ++ m ++ ".local"] | none => [])
  ++ (if mode == some "test" || mode == some "testing" then [] else [".env.local"])
  ++ (match mode with | some m => [".env." ++ m] | none => [])
  ++ [".env"]

/-- The candidate list as claim C2 must be amended: the mode-specific entries
appear only when the mode is defined *and non-empty*. -/
def amendedC2FileNames (mode : Option String) : List String :=
  (match mode with | some m => if m = "" then [] else [".env." ++ m ++ ".local"] | none => [])
  ++ (if mode == some "test" || mode == some "testing" then [] else [".env.local"])
  ++ (match mode with | some m => if m = "" then [] else [".env." ++ m] | none => [])
  ++ [".env"]

/-! ## `src/parser.ts` — `EnvParser`

The parser is line-oriented with carry-over state for multi-line quoted
values.  JS strings are modelled as Lean strings (sequences of characters);
`String.prototype.slice`, `indexOf`, `lastIndexOf` and `trim` are modelled on
the character lists. -/

/-- JS `String.prototype.trim` (on the whitespace characters that occur in
`.env` text). -/
def jsTrim (s : String) : String :=
  String.mk (((s.data.dropWhile Char.isWhitespace).reverse.dropWhile
    Char.isWhitespace).reverse)

/-- JS `s.slice(0, n)` for a nonnegative `n`. -/
def strTake (s : String) (n : Nat) : String :=
  String.mk (s.data.take n)

/-- JS `s.slice(n)` for a nonnegative `n`. -/
def strDrop (s : String) (n : Nat) : String :=
  String.mk (s.data.drop n)

/-- JS `s.startsWith('#')`. -/
def strStartsWithHash (s : String) : Bool :=
  s.data.head? == some '#'

/-- `indexOf` of the first occurrence of character `c` (JS `-1` is `none`). -/
def idxOf? (l : List Char) (c : Char) : Option Nat :=
  l.findIdx? (· == c)

/-- `lastIndexOf` of character `c` (JS `-1` is `none`). -/
def lastIdxOf? (l : List Char) (c : Char) : Option Nat :=
  (l.reverse.findIdx? (· == c)).map (fun i => l.length - 1 - i)

/-- `value.indexOf(' #')`: index of the first occurrence of the two-character
substring space-then-hash (JS `-1` is `none`). -/
def idxOfSpaceHash : List Char → Option Nat
  | ' ' :: '#' :: _ => some 0
  | _ :: rest => (idxOfSpaceHash rest).map (· + 1)
  | [] => none

/-- `ParseOptions` from `src/parser.ts`: `ignoreProcessEnv` defaults to
`false` (an absent optional boolean is falsy), `envSource` is an optional
override record. -/
structure ParseOptions where
  ignoreProcessEnv : Bool := false
  envSource : Option EnvMap := none

/-- `EnvParser.extractQuotedValue`: drop the opening quote, then cut at the
last occurrence of the quote character if any. -/
def extractQuotedValue (value : String) (quote : Char) : String :=
  let cleanValue := strDrop value 1
  match lastIdxOf? cleanValue.data quote with
  | some closingIndex => strTake cleanValue closingIndex
  | none => cleanValue

/-- JS `\w`: ASCII letters, digits and underscore. -/
def isWordChar (c : Char) : Bool :=
  c.isAlpha || c.isDigit || c == '_'

/-- Attempt to match the regex fragment that follows the dollar sign in
the pattern (braced form): a brace-delimited nonempty run of non-brace
characters, i.e. the rest of a match of the source's first regular
expression.  Returns the captured name and the remaining input. -/
def bracedMatch : List Char → Option (String × List Char)
  | '{' :: l =>
    let name := l.takeWhile (fun c => c ≠ '}')
    match l.dropWhile (fun c => c ≠ '}') with
    | '}' :: rest => if name.isEmpty then none else some (String.mk name, rest)
    | _ => none
  | _ => none

/-- Attempt to match the name part of a bare reference (the source's second
regular expression, case-insensitive): a leading ASCII letter or underscore
followed by a maximal run of word characters. -/
def nameMatch : List Char → Option (String × List Char)
  | c :: rest =>
    if c.isAlpha || c == '_' then
      some (String.mk (c :: rest.takeWhile isWordChar), rest.dropWhile isWordChar)
    else none
  | [] => none

/-- Global-replace scan for the braced form: walk the input left to right,
replacing every match by the resolver's output (which is not rescanned) and
advancing one character when a dollar sign does not start a match.  The fuel
is an upper bound on the number of steps; every step consumes at least one
input character, so fuel equal to the input length suffices. -/
def scanBracedF (resolve : String → String) : Nat → List Char → List Char
  | 0, l => l
  | _ + 1, [] => []
  | fuel + 1, c :: rest =>
    if c = '$' then
      match bracedMatch rest with
      | some (name, rest') => (resolve name).data ++ scanBracedF resolve fuel rest'
      | none => c :: scanBracedF resolve fuel rest
    else c :: scanBracedF resolve fuel rest

/-- Global-replace scan for the bare form; `prevDollar` records whether the
character immediately before the current position in the input is a dollar
sign (the negative lookbehind). -/
def scanBareF (resolve : String → String) : Nat → Bool → List Char → List Char
  | 0, _, l => l
  | _ + 1, _, [] => []
  | fuel + 1, prevDollar, c :: rest =>
    if c = '$' then
      if prevDollar then c :: scanBareF resolve fuel true rest
      else
        match nameMatch rest with
        | some (name, rest') => (resolve name).data ++ scanBareF resolve fuel false rest'
        | none => c :: scanBareF resolve fuel true rest
    else c :: scanBareF resolve fuel false rest

/-- The body shared by both replacement callbacks in
`EnvParser.interpolate`: first consult the keys already parsed in this pass,
then (unless `ignoreProcessEnv` is set) the interpolation source
`options.envSource ?? env`, else the empty string. -/
def resolveVar (opts : ParseOptions) (ambient : EnvMap) (parsed : ParsedEnv)
    (varName : String) : String :=
  let envSource := opts.envSource.getD ambient
  match lookupParsed parsed varName with
  | some v => v
  | none =>
    if !opts.ignoreProcessEnv then
      match jsGet envSource varName with
      | some v => v
      | none => ""
    else ""

/-- `EnvParser.interpolate`: replace the braced form first, then the bare
form on the result, resolving each name with `resolveVar`.  `ambient` is the
module-level `env` imported from `std-env`. -/
def interpolate (opts : ParseOptions) (ambient : EnvMap) (value : String)
    (parsed : ParsedEnv) : String :=
  let step1 := scanBracedF (resolveVar opts ambient parsed) value.data.length value.data
  let step2 := scanBareF (resolveVar opts ambient parsed) step1.length false step1
  String.mk step2

/-- Split on the line-separator regex: a newline optionally preceded by a
carriage return.  A lone carriage return is not a separator. -/
def splitLinesAux : List Char → List Char → List String
  | [], acc => [String.mk acc.reverse]
  | '\r' :: '\n' :: rest, acc => String.mk acc.reverse :: splitLinesAux rest []
  | '\n' :: rest, acc => String.mk acc.reverse :: splitLinesAux rest []
  | c :: rest, acc => splitLinesAux rest (c :: acc)

/-- `contents.split(...)` on the line-separator regex. -/
def splitLines (s : String) : List String :=
  splitLinesAux s.data []

/-- The mutable state of the loop in `EnvParser.parse`: the result object,
the active quote character of an open multi-line value (if any), the
accumulated raw text and the key awaiting its value. -/
structure PState where
  result : ParsedEnv := []
  inQuotes : Option Char := none
  currentLine : String := ""
  currentKey : String := ""
deriving Repr, DecidableEq

/-- One iteration of the loop in `EnvParser.parse`, processing one line. -/
def parseStep (opts : ParseOptions) (ambient : EnvMap) (st : PState)
    (line : String) : PState :=
  match st.inQuotes with
  | some q =>
    let currentLine := st.currentLine ++ "\n" ++ line
    if line.data.contains q then
      let cleanValue := extractQuotedValue currentLine q
      let v := if q = '\'' then cleanValue
               else interpolate opts ambient cleanValue st.result
      { result := setParsed st.result st.currentKey v }
    else
      { st with currentLine := currentLine }
  | none =>
    let trimmed := jsTrim line
    if trimmed == "" || strStartsWithHash trimmed then st
    else
      match trimmed.data.findIdx? (· == '=') with
      | none => st
      | some equalsIndex =>
        let key := jsTrim (strTake trimmed equalsIndex)
        let value := strDrop trimmed (equalsIndex + 1)
        if value.data.head? = some '"' || value.data.head? = some '\'' then
          let firstChar := value.data.headD ' '
          let closingQuote := lastIdxOf? value.data firstChar
          if closingQuote.getD 0 > 0 then
            let cleanValue := extractQuotedValue value firstChar
            let v := if firstChar = '\'' then cleanValue
                     else interpolate opts ambient cleanValue st.result
            { result := setParsed st.result key v }
          else
            { result := st.result, inQuotes := some firstChar,
              currentLine := value, currentKey := key }
        else
          let value1 := match idxOfSpaceHash value.data with
            | some commentIndex => strTake value commentIndex
            | none => value
          { result := setParsed st.result key
              (interpolate opts ambient (jsTrim value1) st.result) }

/-- `EnvParser.parse` / the convenience function `parseEnv`: split into
lines and run the loop from the empty state; the result object is returned.
`ambient` is the module-level `env` imported from `std-env` (the ambient
process environment). -/
def parseEnv (contents : String) (opts : ParseOptions) (ambient : EnvMap) : ParsedEnv :=
  ((splitLines contents).foldl (parseStep opts ambient) {}).result

/-! ## `src/adapters/define.ts` — `resolveAdapters`

An adapter is a named capability whose possibly-asynchronous `load()`
resolves to one environment map; the value it resolves to is embedded
directly. -/

/-- A source adapter `{name, load}`; `load` is the map its `load()` call
resolves to. -/
structure EnvSourceAdapter where
  name : String
  load : EnvMap

/-- `resolveAdapters`: fold the adapter list in order, spreading each
adapter's map over the accumulated result. -/
def resolveAdapters (adapters : List EnvSourceAdapter) : EnvMap :=
  adapters.foldl (fun result adapter => spread result adapter.load) []

/-! ## `src/validator.ts` — `EnvValidator` -/

/-- What a Standard-Schema `validate(value)` call returns: a pending promise
(an asynchronous schema), a success carrying the transformed value, or a
failure carrying issue messages. -/
inductive CapResult
  | promise
  | ok (value : String)
  | fail (msgs : List String)
deriving DecidableEq, Repr

/-- An externally supplied validation capability for one field. -/
structure Capability where
  validate : Option String → CapResult

/-- A schema record: field names with their validation capabilities, in
`Object.entries` order. -/
abbrev EnvSchema := List (String × Capability)

/-- A synchronous capability that accepts every value, echoing it (a
missing value becomes the empty string). -/
def capOk : Capability := ⟨fun v => .ok (v.getD "")⟩

/-- A capability whose `validate` returns a pending promise — an
asynchronous schema. -/
def capAsync : Capability := ⟨fun _ => .promise⟩

/-- One entry of `EnvValidationError.issues`. -/
structure EnvIssue where
  path : String
  message : String
deriving DecidableEq, Repr

/-- The two exceptions `EnvValidator.validate` can raise: the `TypeError`
naming the field whose schema is asynchronous, and the aggregated
`EnvValidationError`. -/
inductive VError
  | typeError (key : String)
  | validationError (issues : List EnvIssue)
deriving DecidableEq, Repr

/-- The loop of `EnvValidator.validate`, processing schema entries in order
and accumulating the result object and the issue list.  The first component
of the output records, in order, the fields whose validation capability was
invoked (`validateValue` reached the `schema.validate(value)` call). -/
def validateAux (env : EnvMap) :
    EnvSchema → List (String × String) → List EnvIssue →
    List String × Except VError (List (String × String))
  | [], result, issues =>
    ([], if issues.isEmpty then .ok result else .error (.validationError issues))
  | (key, cap) :: rest, result, issues =>
    match cap.validate (jsGet env key) with
    | .promise => ([key], .error (.typeError key))
    | .ok v =>
      let (tr, out) := validateAux env rest (setParsed result key v) issues
      (key :: tr, out)
    | .fail msgs =>
      let (tr, out) :=
        validateAux env rest result (issues ++ msgs.map (fun m => ⟨key, m⟩))
      (key :: tr, out)

/-- `EnvValidator.validate`: run the loop from an empty result object and an
empty issue list. -/
def EnvValidator.validate (schema : EnvSchema) (env : EnvMap) :
    List String × Except VError (List (String × String)) :=
  validateAux env schema [] []

/-! ## `src/adapters/json.ts` — `fromJSON` -/

/-- A parsed JSON value (what `JSON.parse` can return; numbers are modelled
on the integers). -/
inductive Json
  | null
  | bool (b : Bool)
  | num (n : Int)
  | str (s : String)
  | arr (elems : List Json)
  | obj (fields : List (String × Json))

/-- The loose-equality test `value == null` (no `undefined` occurs in parsed
JSON). -/
def Json.isNull : Json → Bool
  | .null => true
  | _ => false

/-- The type name the error message interpolates:
`Array.isArray(data) ? 'array' : typeof data`. -/
def jsonTypeName : Json → String
  | .arr _ => "array"
  | .null => "object"
  | .bool _ => "boolean"
  | .num _ => "number"
  | .str _ => "string"
  | .obj _ => "object"

mutual

/-- JS default stringification `String(v)` of a JSON value. -/
def jsToString : Json → String
  | .null => "null"
  | .bool b => if b then "true" else "false"
  | .num n => toString n
  | .str s => s
  | .arr xs => String.intercalate "," (jsToStringElems xs)
  | .obj _ => "[object Object]"

/-- Elements of `Array.prototype.join(',')`: `null` joins as the empty
string, everything else by its default stringification. -/
def jsToStringElems : List Json → List String
  | [] => []
  | .null :: rest => "" :: jsToStringElems rest
  | j :: rest => jsToString j :: jsToStringElems rest

end

/-- The error `fromJSON().load()` raises on a non-object root, carrying the
offending path and the reported JSON type name. -/
inductive JsonLoadErr
  | typeError (path : String) (typeName : String)
deriving DecidableEq, Repr

/-- `fromJSON(opts).load()`: a missing file yields the empty map; a root
that is not a plain object is a `TypeError` naming the path and the type;
an object's entries are assigned in order, `null` values becoming
`undefined` and every other value its default string form.  `contents` is
the `JSON.parse` result of the file, or `none` when `readFileContent`
returned `null`. -/
def fromJSONLoad (filePath : String) (contents : Option Json) :
    Except JsonLoadErr EnvMap :=
  match contents with
  | none => .ok []
  | some (.obj fields) =>
    .ok (fields.foldl
      (fun result kv =>
        setKey result kv.1 (if kv.2.isNull then none else some (jsToString kv.2)))
      [])
  | some data => .error (.typeError filePath (jsonTypeName data))

/-! ## `src/loader.ts` — `EnvLoader.load` and `src/env.ts` — `Env.create`

I/O is tracked explicitly: the filesystem is an injected map from path to
file contents (`none` models every read failure, which the loader
swallows), and each computation returns the ordered list of I/O events it
performed alongside its value. -/

/-- An I/O event: a file-read attempt by the loader, or an adapter `load()`
call by `resolveAdapters`. -/
inductive Event
  | readFile (path : String)
  | adapterLoad (name : String)
deriving DecidableEq, Repr

/-- `EnvLoader.load` (with the resolved `nodeEnv`): attempt to read every
candidate in priority order, recording a read event for each, and keep the
ones that resolved, each as `{path, contents}`. -/
def EnvLoader.load (fs : String → Option String) (directory : String)
    (nodeEnv : Option String) : List Event × List (String × String) :=
  let files := getFileNames nodeEnv
  (files.map (fun f => Event.readFile (directory ++ "/" ++ f)),
   files.filterMap (fun f =>
     (fs (directory ++ "/" ++ f)).map (fun contents => (directory ++ "/" ++ f, contents))))

/-- `EnvCreateOptions` from `src/types.ts`. -/
structure EnvCreateOptions where
  ignoreProcessEnv : Bool := false
  nodeEnv : Option String := none
  envSource : Option EnvMap := none
  sources : Option (List EnvSourceAdapter) := none

/-- The exceptions `Env.create` can raise: the conflicting-configuration
`TypeError` and the validator's errors. -/
inductive CreateErr
  | typeError (msg : String)
  | vError (e : VError)
deriving DecidableEq, Repr

/-- `Env.create` (after overload resolution: `path` is the optional URL
argument, `opts` the options).  `fs` is the injected filesystem and
`ambient` the ambient process environment from `std-env`.  Returns the
ordered I/O event trace together with the outcome. -/
def Env.create (path : Option String) (schema : EnvSchema)
    (opts : EnvCreateOptions) (fs : String → Option String) (ambient : EnvMap) :
    List Event × Except CreateErr (List (String × String)) :=
  if path.isSome && opts.sources.isSome then
    ([], .error (.typeError
      "Cannot use sources option together with path argument. Use fromFiles() adapter instead."))
  else
    let (events, envValues) :=
      match opts.sources with
      | some adapters =>
        (adapters.map (fun a => Event.adapterLoad a.name), resolveAdapters adapters)
      | none =>
        let (events, fromFiles) :=
          match path with
          | some dir =>
            let nodeEnv := opts.nodeEnv <|> jsGet ambient "NODE_ENV"
            let (evs, files) := EnvLoader.load fs dir nodeEnv
            (evs,
             files.reverse.foldl
               (fun acc file =>
                 spreadParsed acc
                   (parseEnv file.2
                     { ignoreProcessEnv := opts.ignoreProcessEnv,
                       envSource := opts.envSource } ambient))
               [])
          | none => ([], [])
        if !opts.ignoreProcessEnv then
          (events, spread fromFiles (opts.envSource.getD ambient))
        else
          (events, fromFiles)
    match (EnvValidator.validate schema envValues).2 with
    | .ok r => (events, .ok r)
    | .error e => (events, .error (.vError e))

/-! ## General lemmas about the object model -/

theorem find?_map_keyfn (g : String × Option String → String × Option String)
    (hg : ∀ p, (g p).1 = p.1) (m : EnvMap) (k : String) :
    (m.map g).find? (fun q => q.1 == k) = (m.find? (fun p => p.1 == k)).map g := by
  induction m with
  | nil => rfl
  | cons p m ih =>
    simp only [List.map_cons, List.find?_cons, hg p]
    cases hp : (p.1 == k) <;> simp [hp, ih]

theorem hasOwn_eq_isSome (m : EnvMap) (k : String) :
    hasOwn m k = (m.find? (fun p => p.1 == k)).isSome := by
  rw [Bool.eq_iff_iff]
  simp [hasOwn, List.any_eq_true, List.find?_isSome]

theorem getOwn_spread (a b : EnvMap) (k : String) :
    getOwn (spread a b) k = (getOwn b k).or (getOwn a k) := by
  have hg : ∀ p : String × Option String,
      ((match b.find? (fun q => q.1 == p.1) with
        | some (_, v) => (p.1, v)
        | none => p) : String × Option String).1 = p.1 := by
    intro p
    cases h : b.find? (fun q => q.1 == p.1) with
    | none => simp
    | some q => obtain ⟨q1, q2⟩ := q; simp
  unfold spread getOwn
  rw [List.find?_append, find?_map_keyfn _ hg]
  cases ha : a.find? (fun p => p.1 == k) with
  | some p =>
    have hpbeq := List.find?_some ha
    have hpk : p.1 = k := eq_of_beq hpbeq
    cases hb : b.find? (fun q => q.1 == k) with
    | some q =>
      obtain ⟨q1, q2⟩ := q
      simp [hpk, hb]
    | none => simp [hpk, hb]
  | none =>
    have hown : hasOwn a k = false := by
      rw [hasOwn_eq_isSome, ha]; rfl
    rw [List.find?_filter]
    have hfun : (fun x : String × Option String =>
        decide ((!(hasOwn a x.1)) = true ∧ (x.1 == k) = true))
        = (fun q : String × Option String => q.1 == k) := by
      funext x
      by_cases hx : (x.1 == k) = true
      · have : x.1 = k := eq_of_beq hx
        simp [hx, this, hown]
      · simp [hx]
    rw [hfun]
    cases b.find? (fun q => q.1 == k) <;> simp

theorem getOwn_setKey (m : EnvMap) (k : String) (v : Option String) (k' : String) :
    getOwn (setKey m k v) k' = if k' = k then some v else getOwn m k' := by
  have hg : ∀ p : String × Option String,
      ((if p.1 == k then (k, v) else p) : String × Option String).1 = p.1 := by
    intro p
    by_cases hp : (p.1 == k) = true
    · simp [hp, eq_of_beq hp]
    · simp [hp]
  unfold setKey getOwn
  by_cases hmem : hasOwn m k = true
  · rw [if_pos hmem, find?_map_keyfn _ hg]
    by_cases hk : k' = k
    · subst hk
      rw [hasOwn_eq_isSome] at hmem
      cases hf : m.find? (fun p => p.1 == k') with
      | none => rw [hf] at hmem; simp at hmem
      | some p =>
        have hp := List.find?_some hf
        simp [hp]
        rw [if_pos (eq_of_beq hp)]
    · rw [if_neg hk]
      cases hf : m.find? (fun p => p.1 == k') with
      | none => rfl
      | some p =>
        have hp := List.find?_some hf
        have hpk : (p.1 == k) = false := by
          rw [Bool.eq_false_iff]
          intro hcon
          exact hk ((eq_of_beq hp).symm.trans (eq_of_beq hcon))
        simp [hpk]
        rw [if_neg (by simpa using hpk)]
  · rw [if_neg hmem, List.find?_append]
    by_cases hk : k' = k
    · subst hk
      have hnone : m.find? (fun p => p.1 == k') = none := by
        rw [hasOwn_eq_isSome] at hmem
        cases hf : m.find? (fun p => p.1 == k') with
        | none => rfl
        | some p => rw [hf] at hmem; simp at hmem
      have hone : (([(k', v)] : EnvMap).find? (fun p => p.1 == k')) = some (k', v) := by
        simp [List.find?_cons]
      rw [hnone, hone, if_pos rfl]
      rfl
    · have hkk : (((k, v) : String × Option String).1 == k') = false := by
        rw [Bool.eq_false_iff]
        intro hcon
        exact hk (eq_of_beq hcon).symm
      have hone : (([(k, v)] : EnvMap).find? (fun p => p.1 == k')) = none := by
        simp [List.find?_cons, hkk]
      rw [hone, Option.or_none, if_neg hk]

theorem getOwn_foldl_setKey (k : String) :
    ∀ (fields : List (String × Json)) (acc : EnvMap),
      getOwn (fields.foldl
          (fun r kv => setKey r kv.1
            (if kv.2.isNull then none else some (jsToString kv.2))) acc) k
        = match (fields.filter (fun kv => kv.1 == k)).getLast? with
          | some kv => some (if kv.2.isNull then none else some (jsToString kv.2))
          | none => getOwn acc k := by
  intro fields
  induction fields with
  | nil => intro acc; rfl
  | cons kv fields ih =>
    intro acc
    rw [List.foldl_cons, ih]
    by_cases hk : (kv.1 == k) = true
    · simp only [List.filter_cons, hk, if_true, List.getLast?_cons]
      cases hl : (fields.filter (fun kv => kv.1 == k)).getLast? with
      | some kv' => simp [hl]
      | none =>
        simp only [hl, Option.getD_none]
        rw [getOwn_setKey, if_pos (eq_of_beq hk).symm]
    · simp only [List.filter_cons, hk, if_false, Bool.false_eq_true]
      cases hl : (fields.filter (fun kv => kv.1 == k)).getLast? with
      | some kv' => simp [hl]
      | none =>
        simp only [hl]
        rw [getOwn_setKey,
          if_neg (fun hcon => absurd (beq_iff_eq.mpr hcon.symm) (by simpa using hk))]

theorem resolveAdapters_append (adapters : List EnvSourceAdapter)
    (a : EnvSourceAdapter) :
    resolveAdapters (adapters ++ [a]) = spread (resolveAdapters adapters) a.load := by
  unfold resolveAdapters
  rw [List.foldl_append]
  rfl

/-! ## Lemmas about the validator loop -/

theorem validateAux_promise (env : EnvMap) (key : String) (cap : Capability)
    (post : EnvSchema) (hk : cap.validate (jsGet env key) = CapResult.promise) :
    ∀ (pre : EnvSchema) (result : List (String × String)) (issues : List EnvIssue),
      (∀ p ∈ pre, p.2.validate (jsGet env p.1) ≠ CapResult.promise) →
      validateAux env (pre ++ (key, cap) :: post) result issues
        = (pre.map Prod.fst ++ [key], .error (.typeError key)) := by
  intro pre
  induction pre with
  | nil =>
    intro result issues _
    simp only [List.nil_append, List.map_nil]
    unfold validateAux
    rw [hk]
  | cons p pre ih =>
    intro result issues hpre
    obtain ⟨k0, c0⟩ := p
    have hp0 : c0.validate (jsGet env k0) ≠ CapResult.promise :=
      hpre (k0, c0) (by simp)
    have hrest : ∀ q ∈ pre, q.2.validate (jsGet env q.1) ≠ CapResult.promise :=
      fun q hq => hpre q (by simp [hq])
    rw [List.cons_append]
    cases hcase : c0.validate (jsGet env k0) with
    | promise => exact absurd hcase hp0
    | ok v =>
      simp only [validateAux, hcase, ih (setParsed result k0 v) issues hrest]
      simp
    | fail msgs =>
      simp only [validateAux, hcase,
        ih result (issues ++ msgs.map (fun m => ⟨k0, m⟩)) hrest]
      simp

/-! ## Lemmas about the parser -/

theorem foldl_parseStep_open (opts : ParseOptions) (ambient : EnvMap) (q : Char) :
    ∀ (ls : List String) (st : PState), st.inQuotes = some q →
      (∀ l ∈ ls, l.data.contains q = false) →
      (ls.foldl (parseStep opts ambient) st).result = st.result := by
  intro ls
  induction ls with
  | nil => intro st _ _; rfl
  | cons l ls ih =>
    intro st h1 h2
    have hl : l.data.contains q = false := h2 l (by simp)
    have hstep : parseStep opts ambient st l
        = { result := st.result, inQuotes := some q,
            currentLine := st.currentLine ++ "\n" ++ l,
            currentKey := st.currentKey } := by
      unfold parseStep
      rw [h1]
      simp [hl]
      simpa using hl
    rw [List.foldl_cons, hstep]
    rw [ih _ rfl (fun x hx => h2 x (by simp [hx]))]

theorem resolveVar_of_lookup_some (opts : ParseOptions) (ambient : EnvMap)
    (parsed : ParsedEnv) (name v : String)
    (h : lookupParsed parsed name = some v) :
    resolveVar opts ambient parsed name = v := by
  simp [resolveVar, h]

theorem resolveVar_of_lookup_none (opts : ParseOptions) (ambient : EnvMap)
    (parsed : ParsedEnv) (name : String)
    (h : lookupParsed parsed name = none)
    (hip : opts.ignoreProcessEnv = false) :
    resolveVar opts ambient parsed name
      = (jsGet (opts.envSource.getD ambient) name).getD "" := by
  cases hjs : jsGet (opts.envSource.getD ambient) name <;>
    simp [resolveVar, h, hip, hjs]

theorem resolveVar_ignore (opts : ParseOptions) (ambient : EnvMap)
    (parsed : ParsedEnv) (name : String)
    (hip : opts.ignoreProcessEnv = true) :
    resolveVar opts ambient parsed name = (lookupParsed parsed name).getD "" := by
  cases hl : lookupParsed parsed name <;> simp [resolveVar, hip, hl]

theorem interpolate_congr (opts₁ opts₂ : ParseOptions) (amb₁ amb₂ : EnvMap)
    (h : ∀ parsed name, resolveVar opts₁ amb₁ parsed name = resolveVar opts₂ amb₂ parsed name) :
    ∀ v parsed, interpolate opts₁ amb₁ v parsed = interpolate opts₂ amb₂ v parsed := by
  intro v parsed
  have hfun : resolveVar opts₁ amb₁ parsed = resolveVar opts₂ amb₂ parsed :=
    funext (h parsed)
  unfold interpolate
  rw [hfun]

theorem parseStep_congr (opts₁ opts₂ : ParseOptions) (amb₁ amb₂ : EnvMap)
    (h : ∀ v parsed, interpolate opts₁ amb₁ v parsed = interpolate opts₂ amb₂ v parsed) :
    ∀ st line, parseStep opts₁ amb₁ st line = parseStep opts₂ amb₂ st line := by
  intro st line
  unfold parseStep
  cases st.inQuotes <;> simp only [h]

theorem parseEnv_ignore_congr (opts₁ opts₂ : ParseOptions) (amb₁ amb₂ : EnvMap)
    (h₁ : opts₁.ignoreProcessEnv = true) (h₂ : opts₂.ignoreProcessEnv = true)
    (contents : String) :
    parseEnv contents opts₁ amb₁ = parseEnv contents opts₂ amb₂ := by
  have hres : ∀ parsed name,
      resolveVar opts₁ amb₁ parsed name = resolveVar opts₂ amb₂ parsed name := by
    intro parsed name
    rw [resolveVar_ignore _ _ _ _ h₁, resolveVar_ignore _ _ _ _ h₂]
  have hstep : parseStep opts₁ amb₁ = parseStep opts₂ amb₂ :=
    funext fun st => funext fun line =>
      parseStep_congr opts₁ opts₂ amb₁ amb₂
        (interpolate_congr opts₁ opts₂ amb₁ amb₂ hres) st line
  unfold parseEnv
  rw [hstep]

/-! ## Claim theorems -/

/-- Claim C1: `resolveAdapters` folds the ordered adapter list left to right
into one map, with a later adapter's entries overwriting earlier ones per
key (appending one more adapter overlays its map on the merge of the
prefix); in particular merging `[{A:1,B:2}, {B:20}]` yields `{A:1, B:20}` —
the last adapter in the list wins per key. -/
theorem C1_resolveAdapters_later_wins :
    (∀ (adapters : List EnvSourceAdapter) (a : EnvSourceAdapter) (k : String),
      getOwn (resolveAdapters (adapters ++ [a])) k
        = (getOwn a.load k).or (getOwn (resolveAdapters adapters) k))
    ∧ resolveAdapters
        [⟨"first", [("A", some "1"), ("B", some "2")]⟩,
         ⟨"second", [("B", some "20")]⟩]
      = [("A", some "1"), ("B", some "20")] := by
  constructor
  · intro adapters a k
    rw [resolveAdapters_append, getOwn_spread]
  · rfl

/-- Claim C2 is false as stated: for the mode value equal to the empty
string — a defined mode — the loader's list omits the mode-specific
entries (the code tests JS truthiness, not definedness), so it differs from
the list the claim derives. -/
theorem C2_counterexample :
    getFileNames (some "") = [".env.local", ".env"]
    ∧ claimC2FileNames (some "")
        = [".env..local", ".env.local", ".env.", ".env"]
    ∧ getFileNames (some "") ≠ claimC2FileNames (some "") := by
  refine ⟨rfl, rfl, ?_⟩
  decide

/-- Claim C2 (amended): for every mode value the candidate list is exactly,
highest priority first, `.env.<mode>.local` (only when the mode is defined
and non-empty), `.env.local` (omitted entirely when the mode equals `test`
or `testing`), `.env.<mode>` (only when the mode is defined and non-empty),
and `.env` (always present), in that order. -/
theorem C2_amended_file_priority :
    ∀ mode : Option String, getFileNames mode = amendedC2FileNames mode := by
  intro mode
  cases mode with
  | none => rfl
  | some m =>
    by_cases hm : m = ""
    · subst hm; rfl
    · simp [getFileNames, amendedC2FileNames, strTruthy, hm]

/-- Claim C3: single-quoted values are never interpolated
(`parse("K='$X'")` gives `{K: '$X'}` verbatim whatever the environment),
while an unquoted `$X` whose name is absent from the already-parsed keys
and from the interpolation source becomes the empty string. -/
theorem C3_single_quote_suppresses_interpolation :
    (∀ (opts : ParseOptions) (ambient : EnvMap),
        parseEnv "K='$X'" opts ambient = [("K", "$X")])
    ∧ (∀ (opts : ParseOptions) (ambient : EnvMap),
        jsGet (opts.envSource.getD ambient) "X" = none →
        parseEnv "K=$X" opts ambient = [("K", "")]) := by
  constructor
  · intro opts ambient; rfl
  · intro opts ambient h
    show [("K", String.mk ((resolveVar opts ambient [] "X").data ++ []))]
        = [("K", "")]
    have hres : resolveVar opts ambient [] "X" = "" := by
      cases hip : opts.ignoreProcessEnv with
      | true => rw [resolveVar_ignore _ _ _ _ hip]; rfl
      | false => rw [resolveVar_of_lookup_none opts ambient [] "X" rfl hip, h]; rfl
    rw [hres]
    rfl

/-- Claim C3 witness: the two behaviours at concrete inputs (the
interpolation source defines `Y` but not `X`). -/
theorem C3_witness :
    parseEnv "K='$X'" {} [("X", some "boom")] = [("K", "$X")]
    ∧ parseEnv "K=$X" {} [("Y", some "y")] = [("K", "")] :=
  ⟨C3_single_quote_suppresses_interpolation.1 {} [("X", some "boom")],
   C3_single_quote_suppresses_interpolation.2 {} [("Y", some "y")] rfl⟩

/-- Claim C4: per interpolation occurrence the lookup consults the keys
already assigned in this parse pass first, and falls back to the
interpolation source only when the name is absent there; in particular
`parse('B=base\nP=${B}/x')` gives `{P: 'base/x'}` whatever the
interpolation source binds `B` to. -/
theorem C4_interpolation_lookup_order :
    (∀ (opts : ParseOptions) (ambient : EnvMap),
        parseEnv "B=base\nP=${B}/x" opts ambient
          = [("B", "base"), ("P", "base/x")])
    ∧ (∀ (opts : ParseOptions) (ambient : EnvMap) (parsed : ParsedEnv)
          (name v : String),
        lookupParsed parsed name = some v →
        resolveVar opts ambient parsed name = v)
    ∧ (∀ (opts : ParseOptions) (ambient : EnvMap) (parsed : ParsedEnv)
          (name : String),
        lookupParsed parsed name = none →
        opts.ignoreProcessEnv = false →
        resolveVar opts ambient parsed name
          = (jsGet (opts.envSource.getD ambient) name).getD "") :=
  ⟨fun _ _ => rfl,
   fun opts ambient parsed name v h =>
     resolveVar_of_lookup_some opts ambient parsed name v h,
   fun opts ambient parsed name h hip =>
     resolveVar_of_lookup_none opts ambient parsed name h hip⟩

/-- Claim C4 witness: the concrete parse with an interpolation source that
also defines `B`, and the two lookup-order facts at concrete inputs. -/
theorem C4_witness :
    parseEnv "B=base\nP=${B}/x" {} [("B", some "ambient")]
      = [("B", "base"), ("P", "base/x")]
    ∧ resolveVar {} [] [("A", "1")] "A" = "1"
    ∧ resolveVar {} [("A", some "amb")] [] "A" = "amb" :=
  ⟨C4_interpolation_lookup_order.1 {} [("B", some "ambient")],
   C4_interpolation_lookup_order.2.1 {} [] [("A", "1")] "A" "1" rfl,
   C4_interpolation_lookup_order.2.2 {} [("A", some "amb")] [] "A" rfl rfl⟩

/-- Claim C5: an empty quoted value on one line closes on that line (the
closing quote sits at index 1 of the value, which is strictly greater
than 0), so `parse('KEY=""')` gives `{KEY: ''}`; a lone opening quote puts
the parser into a continuation that never closes when no later line
contains the quote character, so `KEY` stays absent. -/
theorem C5_zero_offset_quote_boundary :
    (∀ (opts : ParseOptions) (ambient : EnvMap),
        parseEnv "KEY=\"\"" opts ambient = [("KEY", "")])
    ∧ (∀ (opts : ParseOptions) (ambient : EnvMap) (rest : String),
        (∀ l ∈ splitLines rest, l.data.contains '"' = false) →
        lookupParsed (parseEnv ("KEY=\"\n" ++ rest) opts ambient) "KEY" = none) := by
  constructor
  · intro opts ambient; rfl
  · intro opts ambient rest h
    have hs : parseEnv ("KEY=\"\n" ++ rest) opts ambient
        = ((splitLines rest).foldl (parseStep opts ambient)
            { result := [], inQuotes := some '"', currentLine := "\"",
              currentKey := "KEY" }).result := rfl
    rw [hs, foldl_parseStep_open opts ambient '"' (splitLines rest) _ rfl h]
    rfl

/-- Claim C5 witness: `KEY=""` closes on the line, and an unterminated
quote followed by two quote-free lines leaves `KEY` absent. -/
theorem C5_witness :
    parseEnv "KEY=\"\"" {} [] = [("KEY", "")]
    ∧ (∀ l ∈ splitLines "abc\nxyz", l.data.contains '"' = false)
    ∧ lookupParsed (parseEnv ("KEY=\"\n" ++ "abc\nxyz") {} []) "KEY" = none :=
  ⟨C5_zero_offset_quote_boundary.1 {} [], by decide,
   C5_zero_offset_quote_boundary.2 {} [] "abc\nxyz" (by decide)⟩

/-- Claim C6 is false as stated: the parser only skips a line when it
contains no `=` at all; a line of the form `=value` has its first `=` at
index 0, so the key is the empty string and the line *does* contribute an
entry under the empty-string key. -/
theorem C6_counterexample :
    parseEnv "=value" {} [] = [("", "value")]
    ∧ parseEnv "=value" {} [] ≠ [] :=
  ⟨rfl, by decide⟩

/-- Claim C6 (amended): a line is silently skipped as malformed only when
its trimmed form contains no `=` character at all (never an error); a line
whose trimmed form has no characters before its first `=`, such as
`=value`, is instead processed with the empty string as its key. -/
theorem C6_amended_no_equals_skipped :
    (∀ (opts : ParseOptions) (ambient : EnvMap),
        parseEnv "=value" opts ambient = [("", "value")])
    ∧ (∀ (opts : ParseOptions) (ambient : EnvMap) (st : PState) (line : String),
        st.inQuotes = none →
        (jsTrim line).data.contains '=' = false →
        parseStep opts ambient st line = st) := by
  constructor
  · intro opts ambient; rfl
  · intro opts ambient st line h1 h2
    have hmem : '=' ∉ (jsTrim line).data := by simpa using h2
    have hidx : (jsTrim line).data.findIdx? (· == '=') = none := by
      rw [List.findIdx?_eq_none_iff]
      intro x hx
      cases hbe : (x == '=') with
      | false => rfl
      | true => exact absurd (eq_of_beq hbe ▸ hx) hmem
    unfold parseStep
    rw [h1]
    by_cases hb : ((jsTrim line) == "" || strStartsWithHash (jsTrim line)) = true
    · simp [hb]
    · simp [hb, hidx]

/-- Claim C6 witness: the amended behaviour at concrete inputs — `=value`
assigns under the empty key, and a line with no `=` is skipped. -/
theorem C6_witness :
    parseEnv "=value" {} [("Z", some "z")] = [("", "value")]
    ∧ parseStep {} [] {} "INVALID_LINE" = {} :=
  ⟨C6_amended_no_equals_skipped.1 {} [("Z", some "z")],
   C6_amended_no_equals_skipped.2 {} [] {} "INVALID_LINE" rfl (by decide)⟩

/-- Claim C7 is false as stated: with a synchronous field `A` listed before
an asynchronous field `B`, the validator raises the `TypeError` naming `B`,
but the invocation trace shows that field `A`'s capability was invoked —
and hence `A` was validated — before the error was raised. -/
theorem C7_counterexample :
    EnvValidator.validate [("A", capOk), ("B", capAsync)] [("A", some "x")]
      = (["A", "B"], .error (.typeError "B"))
    ∧ "A" ∈ (EnvValidator.validate [("A", capOk), ("B", capAsync)]
        [("A", some "x")]).1 :=
  ⟨rfl, by decide⟩

/-- Claim C7 (amended): when a field's validation capability returns a
pending result, `EnvValidator.validate` raises a `TypeError` naming that
field as soon as the loop reaches it: every field earlier in the schema has
been validated by then, the offending field's capability is the last one
invoked, no later field is validated, and the error preempts any aggregated
validation failure. -/
theorem C7_async_typeerror_at_field :
    ∀ (pre post : EnvSchema) (key : String) (cap : Capability) (env : EnvMap),
      (∀ p ∈ pre, p.2.validate (jsGet env p.1) ≠ CapResult.promise) →
      cap.validate (jsGet env key) = CapResult.promise →
      EnvValidator.validate (pre ++ (key, cap) :: post) env
        = (pre.map Prod.fst ++ [key], .error (.typeError key)) := by
  intro pre post key cap env hpre hasync
  unfold EnvValidator.validate
  exact validateAux_promise env key cap post hasync pre [] [] hpre

/-- Claim C7 witness: the amended theorem applied to a schema with one
synchronous field before the asynchronous one and one field after it. -/
theorem C7_witness :
    EnvValidator.validate [("A", capOk), ("B", capAsync), ("C", capOk)] []
      = (["A", "B"], .error (.typeError "B")) :=
  C7_async_typeerror_at_field [("A", capOk)] [("C", capOk)] "B" capAsync []
    (by decide) rfl

/-- Claim C8: supplying both a path argument and an explicit `sources`
adapter list makes `Env.create` raise the conflicting-configuration
`TypeError` with an empty I/O trace — no file read is attempted and no
adapter `load()` is invoked. -/
theorem C8_conflict_fails_before_io :
    ∀ (dir : String) (schema : EnvSchema) (opts : EnvCreateOptions)
      (ads : List EnvSourceAdapter) (fs : String → Option String)
      (ambient : EnvMap),
      opts.sources = some ads →
      Env.create (some dir) schema opts fs ambient
        = ([], .error (.typeError
            "Cannot use sources option together with path argument. Use fromFiles() adapter instead.")) := by
  intro dir schema opts ads fs ambient h
  unfold Env.create
  rw [h]
  rfl

/-- Claim C8 witness: the conflict error at a concrete directory and
adapter list, with an empty event trace. -/
theorem C8_witness :
    Env.create (some "config") [] { sources := some [⟨"object", [("A", some "1")]⟩] }
        (fun _ => none) []
      = ([], .error (.typeError
          "Cannot use sources option together with path argument. Use fromFiles() adapter instead.")) :=
  C8_conflict_fails_before_io "config" [] _ [⟨"object", [("A", some "1")]⟩]
    (fun _ => none) [] rfl

/-- Claim C9: the JSON adapter's load fails on an array or non-object root
with a `TypeError` naming the path and the reported JSON type (`array` for
`[1,2,3]`); on a flat object it assigns every entry, a `null` value
becoming a present-but-`undefined` key (so `{"K":null}` yields
`{K: undefined}`) and every other value its default string form. -/
theorem C9_fromJSON_root_and_coercion :
    (∀ (path : String) (elems : List Json),
        fromJSONLoad path (some (Json.arr elems))
          = .error (.typeError path "array"))
    ∧ fromJSONLoad "env.json" (some (Json.arr [Json.num 1, Json.num 2, Json.num 3]))
        = .error (.typeError "env.json" "array")
    ∧ fromJSONLoad "env.json" (some (Json.obj [("K", Json.null)])) = .ok [("K", none)]
    ∧ (∀ (path : String) (b : Bool) (n : Int) (s : String),
        fromJSONLoad path (some (Json.bool b)) = .error (.typeError path "boolean")
        ∧ fromJSONLoad path (some (Json.num n)) = .error (.typeError path "number")
        ∧ fromJSONLoad path (some (Json.str s)) = .error (.typeError path "string")
        ∧ fromJSONLoad path (some Json.null) = .error (.typeError path "object"))
    ∧ (∀ (path : String) (fields : List (String × Json)) (k : String),
        ∃ m, fromJSONLoad path (some (Json.obj fields)) = .ok m ∧
          getOwn m k = ((fields.filter (fun kv => kv.1 == k)).getLast?).map
              (fun kv => if kv.2.isNull then none else some (jsToString kv.2))) := by
  refine ⟨fun path elems => rfl, rfl, rfl,
    fun path b n s => ⟨rfl, rfl, rfl, rfl⟩, ?_⟩
  intro path fields k
  refine ⟨_, rfl, ?_⟩
  rw [getOwn_foldl_setKey]
  cases (fields.filter (fun kv => kv.1 == k)).getLast? <;> rfl

/-- Claim C10: when `ignoreProcessEnv` is set, the parse result is
independent of the interpolation source — even a caller-supplied
`envSource` override is never consulted — and each occurrence resolves to
the key assigned earlier in the same pass or to the empty string. -/
theorem C10_ignoreProcessEnv_shuts_off_source :
    (∀ (opts₁ opts₂ : ParseOptions) (amb₁ amb₂ : EnvMap) (contents : String),
        opts₁.ignoreProcessEnv = true → opts₂.ignoreProcessEnv = true →
        parseEnv contents opts₁ amb₁ = parseEnv contents opts₂ amb₂)
    ∧ (∀ (opts : ParseOptions) (ambient : EnvMap) (parsed : ParsedEnv)
          (name : String),
        opts.ignoreProcessEnv = true →
        resolveVar opts ambient parsed name = (lookupParsed parsed name).getD "") :=
  ⟨fun o₁ o₂ a₁ a₂ c h₁ h₂ => parseEnv_ignore_congr o₁ o₂ a₁ a₂ h₁ h₂ c,
   fun opts ambient parsed name h => resolveVar_ignore opts ambient parsed name h⟩

/-- Claim C10 witness: a parse with a caller-supplied `envSource` override
equals the parse with a different ambient environment and no override, and
an unresolved name yields the empty string despite the override binding
it. -/
theorem C10_witness :
    parseEnv "P=$T/q" { ignoreProcessEnv := true, envSource := some [("T", some "v")] } []
      = parseEnv "P=$T/q" { ignoreProcessEnv := true } [("T", some "w")]
    ∧ resolveVar { ignoreProcessEnv := true, envSource := some [("T", some "v")] } [] [] "T"
      = "" :=
  ⟨C10_ignoreProcessEnv_shuts_off_source.1 _ _ [] [("T", some "w")] "P=$T/q" rfl rfl,
   C10_ignoreProcessEnv_shuts_off_source.2 _ [] [] "T" rfl⟩

end Enwow
